import Mathlib

/-
Shallow embedding of the pltracker repository (auth_helper.py,
quickbooks_client.py, main.py) and verification of its specification.

JSON token files and parsed response bodies are modelled as records of
optional fields (`none` = key absent).  Network calls are modelled by
oracle arguments: the responses the remote side would produce.
-/

namespace PLTracker

/-- The persisted token record (`.secrets/quickbooks_token.json`).  Only the
fields the code reads are modelled; `none` means the JSON key is absent. -/
structure Tokens where
  access_token : Option String
  refresh_token : Option String
  realm_id : Option String
deriving DecidableEq, Repr

/-- Outcome of a `requests.post` to the OAuth token endpoint: HTTP status plus
the parsed JSON body fields.  `none` at the call site models a raised
request exception. -/
structure TokenResp where
  status : Nat
  body : Tokens
deriving DecidableEq, Repr

/-- `QuickBooksAuthHelper.refresh_tokens` (auth_helper.py 199-224).
`persisted` is the current content of the token file (`none` = missing or
unreadable), `post` the token-endpoint response.  Returns the function's
return value together with the token-file content afterwards
(`_save_tokens` rewrites the whole file). -/
def refresh_tokens (persisted : Option Tokens) (post : Option TokenResp) :
    Option Tokens × Option Tokens :=
  match persisted with
  | none => (none, persisted)
  | some t =>
    match t.refresh_token with
    | none => (none, persisted)
    | some _ =>
      match post with
      | none => (none, persisted)
      | some resp =>
        if resp.status ≠ 200 then (none, persisted)
        else
          let nt := resp.body
          let nt2 := if nt.realm_id = none ∧ t.realm_id ≠ none then
              { nt with realm_id := t.realm_id } else nt
          (some nt2, some nt2)

/-- Result of `QuickBooksAuthHelper._company_info`: `True` on HTTP 200,
otherwise the status code (0 for a network error). -/
inductive CIRes where
  | ok
  | code (n : Nat)
deriving DecidableEq, Repr

/-- `QuickBooksAuthHelper.test_company_info` (auth_helper.py 253-280).
`ci k a` is the `_company_info` outcome of the k-th call made with access
token `a`; `post` is the token-endpoint response `refresh_tokens` would see.
Returns `some (result, number of refresh_tokens invocations)`; `none`
models the `KeyError` raised when the refresh response lacks
`access_token`. -/
def test_company_info (persisted : Option Tokens) (ci : Nat → String → CIRes)
    (post : Option TokenResp) : Option (Bool × Nat) :=
  match persisted with
  | none => some (false, 0)
  | some t =>
    match t.access_token, t.realm_id with
    | some a, some _ =>
      (match ci 0 a with
      | .ok => some (true, 0)
      | .code n =>
        if n = 401 then
          match (refresh_tokens persisted post).1 with
          | none => some (false, 1)
          | some nt =>
            match nt.access_token with
            | none => none
            | some a2 =>
              match ci 1 a2 with
              | .ok => some (true, 1)
              | .code _ => some (false, 1)
        else some (false, 0))
    | _, _ => some (false, 0)

/-! ## Paginated fetch (quickbooks_client.py, get_projects / get_expenses) -/

/-- One response of the query endpoint, as seen by the pagination loop:
a page (the list under the collection key of `QueryResponse`), a response
without the collection key, or a raised request/decode exception. -/
inductive PageResp (α : Type) where
  | page (batch : List α)
  | noKey
  | err
deriving DecidableEq, Repr

/-- Outcome of the pagination loop: the accumulated records (the Python
function's return value), the number of page requests issued, and whether
an exception was caught (the code then prints an error and breaks; the
flag records that print). -/
structure FetchResult (α : Type) where
  records : List α
  requests : Nat
  errored : Bool
deriving DecidableEq, Repr

/-- The `max_results` query parameter actually sent with each request:
`min(max_results, 1000)` (quickbooks_client.py 97, 151). -/
def requestedPageSize (maxResults : Nat) : Nat := min maxResults 1000

/-- The `while True` pagination loop of `get_expenses` (quickbooks_client.py
147-173) and `get_projects` (93-119), run against a trace of backend
responses indexed by request order (the advancing `start_position` is
bookkeeping only and does not affect the result, so it is not tracked).
An exhausted trace models a run observed up to that many responses. -/
def fetchGo (maxResults : Nat) : List (PageResp α) → FetchResult α
  | [] => ⟨[], 0, false⟩
  | r :: rest =>
    match r with
    | .err => ⟨[], 1, true⟩
    | .noKey => ⟨[], 1, false⟩
    | .page batch =>
      if batch.length < maxResults then ⟨batch, 1, false⟩
      else
        let res := fetchGo maxResults rest
        ⟨batch ++ res.records, res.requests + 1, res.errored⟩

/-- The value `get_expenses` (and `get_projects`) returns to its caller:
only the accumulated record list. -/
def get_expenses (maxResults : Nat) (backend : List (PageResp α)) : List α :=
  (fetchGo maxResults backend).records

/-! ## Authorization flow (auth_helper.py, AuthHandler / authenticate) -/

/-- A GET request arriving at the local callback listener: the path and the
`code`, `state` and `realmId` query parameters (`none` = absent). -/
structure CallbackReq where
  path : String
  code : Option String
  state : Option String
  realmId : Option String
deriving DecidableEq, Repr

/-- The listener's shared mutable slots (`server.auth_code`,
`server.realm_id`, `server.should_stop`). -/
structure ServerState where
  auth_code : Option String
  realm_id : Option String
  should_stop : Bool
deriving DecidableEq, Repr

/-- Server state right after `_start_local_server` (auth_helper.py 120-122). -/
def initServer : ServerState := ⟨none, none, false⟩

/-- `AuthHandler.do_GET` (auth_helper.py 78-111): new server state and the
HTTP status sent back.  `not code` in Python is true for a missing or
empty code; a missing `state` never equals the nonce. -/
def do_GET (redirectPath nonce : String) (req : CallbackReq)
    (s : ServerState) : ServerState × Nat :=
  if req.path ≠ redirectPath then (s, 404)
  else if req.code = none ∨ req.code = some "" ∨ req.state ≠ some nonce then
    ({ s with should_stop := true }, 400)
  else
    ({ auth_code := req.code, realm_id := req.realmId, should_stop := true }, 200)

/-- `_serve_until_stopped` (auth_helper.py 129-131): handle requests in
arrival order until the stop flag is set; `reqs` are the requests arriving
before the poll loop's timeout. -/
def serveLoop (redirectPath nonce : String) :
    ServerState → List CallbackReq → ServerState
  | s, [] => s
  | s, r :: rs =>
    if s.should_stop then s
    else serveLoop redirectPath nonce (do_GET redirectPath nonce r s).1 rs

/-- `QuickBooksAuthHelper.authenticate` (auth_helper.py 135-164).
`reqs` are the callback requests arriving before the timeout (`[]` models a
pure timeout run); `exchange` is `_exchange_code_for_tokens` as an oracle
(`none` = non-200 response or request error).  Returns the token dict, with
the captured realm id added when the exchange body lacks one. -/
def authenticate (redirectPath nonce : String) (reqs : List CallbackReq)
    (exchange : String → Option Tokens) : Option Tokens :=
  let s := serveLoop redirectPath nonce initServer reqs
  match s.auth_code with
  | none => none
  | some c =>
    match exchange c with
    | none => none
    | some toks =>
      if s.realm_id ≠ none ∧ toks.realm_id = none then
        some { toks with realm_id := s.realm_id }
      else some toks

/-- A callback request the handler rejects when it hits the configured
path: missing (or Python-falsy empty) `code`, or `state` different from
the nonce of this run. -/
def rejecting (nonce : String) (r : CallbackReq) : Prop :=
  r.code = none ∨ r.code = some "" ∨ r.state ≠ some nonce

instance (nonce : String) (r : CallbackReq) : Decidable (rejecting nonce r) := by
  unfold rejecting; infer_instance

/-! ## Association lists

Python dicts preserve insertion order; an update keeps the key's original
position and an insert appends at the end.  They are modelled as ordered
association lists with exactly that behaviour. -/

/-- First value stored under `k`, like `d.get(k)`. -/
def alookup [DecidableEq κ] : List (κ × β) → κ → Option β
  | [], _ => none
  | (k2, v) :: rest, k => if k2 = k then some v else alookup rest k

/-- `d[k] = v`: replace in place if present, else append. -/
def upsert [DecidableEq κ] : List (κ × β) → κ → β → List (κ × β)
  | [], k, v => [(k, v)]
  | (k2, v2) :: rest, k, v =>
    if k2 = k then (k, v) :: rest else (k2, v2) :: upsert rest k v

/-- The keys, in insertion order, like `list(d)`. -/
def keysOf (l : List (κ × β)) : List κ := l.map Prod.fst

/-! ## Hierarchy build (quickbooks_client.py, get_project_hierarchy) -/

/-- One raw project record as returned by the query endpoint; `none` = key
absent.  `ParentRef` is the value under `ParentRef.value`; a missing or
empty `ParentRef` dict and a dict without `value` all read as `none`
(quickbooks_client.py 189). -/
structure ProjRec where
  Id : Option String
  Name : Option String
  Description : Option String
  ParentRef : Option String
deriving DecidableEq, Repr

/-- The per-node data stored in the lookup table (children are kept
separately as id references, see `Hierarchy`). -/
structure NodeData where
  name : String
  description : String
  parent_ref : Option String
deriving DecidableEq, Repr

/-- The `Id` of a record as pass 1 admits it: present and non-empty
(`if project_id:` skips `None` and `""`, quickbooks_client.py 183-184). -/
def validId (p : ProjRec) : Option String :=
  match p.Id with
  | none => none
  | some i => if i = "" then none else some i

/-- One pass-1 step (quickbooks_client.py 182-192): admit the record's node
under its id, defaulting missing name/description to the empty string. -/
def lookupStep (acc : List (String × NodeData)) (p : ProjRec) :
    List (String × NodeData) :=
  match validId p with
  | none => acc
  | some i => upsert acc i ⟨p.Name.getD "", p.Description.getD "", p.ParentRef⟩

/-- Pass 1 (quickbooks_client.py 181-192): build the project lookup table,
one entry per admitted id, later duplicates overwriting in place. -/
def buildLookup (ps : List ProjRec) : List (String × NodeData) :=
  ps.foldl lookupStep []

/-- The test `if parent_id and parent_id in project_lookup`
(quickbooks_client.py 199): `some p` when the parent reference is truthy
and resolves in the lookup table, else `none`. -/
def resolvesTo (keys : List String) (pref : Option String) : Option String :=
  match pref with
  | none => none
  | some p => if p ≠ "" ∧ p ∈ keys then some p else none

/-- Append `c` to the child list stored under `p` (the mutation
`project_lookup[parent_id]['children'].append(project_data)`); a no-op if
`p` has no entry. -/
def addChild : List (String × List String) → String → String → List (String × List String)
  | [], _, _ => []
  | (k, cs) :: rest, p, c =>
    if k = p then (k, cs ++ [c]) :: rest else (k, cs) :: addChild rest p c

/-- One pass-2 step (quickbooks_client.py 196-204) over the entry
`(id, data)`: attach to the resolved parent, or else record a root. -/
def pass2Step (keys : List String)
    (acc : List (String × List String) × List String) (e : String × NodeData) :
    List (String × List String) × List String :=
  match resolvesTo keys e.2.parent_ref with
  | some p => (addChild acc.1 p e.1, acc.2)
  | none => (acc.1, acc.2 ++ [e.1])

/-- Result of `get_project_hierarchy`: the lookup table (`all_projects`),
the children of each node as id references in append order, and the root
ids in append order.  Nodes in the Python result are shared mutable dicts;
representing child/root references by their unique ids is the same graph. -/
structure Hierarchy where
  all_projects : List (String × NodeData)
  children : List (String × List String)
  root_projects : List String
deriving DecidableEq, Repr

/-- `QuickBooksClient.get_project_hierarchy` (quickbooks_client.py 175-209)
applied to the flat project list the pagination already produced. -/
def get_project_hierarchy (ps : List ProjRec) : Hierarchy :=
  let lookup := buildLookup ps
  let keys := keysOf lookup
  let res := lookup.foldl (pass2Step keys) (keys.map fun k => (k, []), [])
  ⟨lookup, res.1, res.2⟩

/-! ## Subtree selection (main.py, _get_project_and_subproject_ids)

The hierarchy nodes passed around in main.py are dicts with an `Id` and a
`children` list; they are modelled as a tree (mutual with its child list,
so that all functions are structurally recursive). -/

mutual
inductive PNode where
  | mk (nodeId : String) (children : PForest)
deriving Repr
inductive PForest where
  | nil
  | cons (head : PNode) (tail : PForest)
deriving Repr
end

mutual
/-- `find_project_node` (main.py 207-214): the node itself first, then its
children left to right, first match wins. -/
def findNode : PNode → String → Option PNode
  | .mk i cs, t => if i = t then some (.mk i cs) else findForest cs t
def findForest : PForest → String → Option PNode
  | .nil, _ => none
  | .cons c cs, t =>
    match findNode c t with
    | some n => some n
    | none => findForest cs t
end

mutual
/-- `collect_project_ids` (main.py 216-219): append the node's id to the
shared accumulator list, then recurse into the children in order. -/
def collectGo : PNode → List String → List String
  | .mk i cs, acc => collectForest cs (acc ++ [i])
def collectForest : PForest → List String → List String
  | .nil, acc => acc
  | .cons c cs, acc => collectForest cs (collectGo c acc)
end

mutual
/-- Modelled from the spec's contract for `SubtreeSelector`: depth-first
pre-order id listing, for comparison with `collectGo`. -/
def preorder : PNode → List String
  | .mk i cs => i :: preorderForest cs
def preorderForest : PForest → List String
  | .nil => []
  | .cons c cs => preorder c ++ preorderForest cs
end

/-- `_get_project_and_subproject_ids` (main.py 205-227). -/
def getProjectAndSubprojectIds (hierarchy : PNode) (projectId : String) :
    List String :=
  match findNode hierarchy projectId with
  | none => [projectId]
  | some n => collectGo n []

/-! ## Expense aggregation (quickbooks_client.py, get_project_expenses_summary)

Monetary amounts (`float(expense.get('TotalAmt', 0))`) are modelled as
integers: the claims concern grouping, counting and summation, which the
code performs by one left-to-right accumulation in either arithmetic. -/

/-- The `ProjectRef` sub-dict of a transaction record. -/
structure ExpRef where
  value : Option String
  name : Option String
deriving DecidableEq, Repr

/-- One transaction (`Purchase`) record, restricted to the fields the
aggregation reads. -/
structure Expense where
  ProjectRef : Option ExpRef
  TotalAmt : Option Int
deriving DecidableEq, Repr

/-- `expense.get('ProjectRef', {}).get('value')` (quickbooks_client.py 232-233):
the grouping key; `none` both when the record has no `ProjectRef` dict and
when that dict has no `value`. -/
def refValue (e : Expense) : Option String :=
  match e.ProjectRef with
  | none => none
  | some r => r.value

/-- `expense.get('ProjectRef', {}).get('name', 'Unknown Project')`
(quickbooks_client.py 234). -/
def refName (e : Expense) : String :=
  match e.ProjectRef with
  | none => "Unknown Project"
  | some r => r.name.getD "Unknown Project"

/-- `float(expense.get('TotalAmt', 0))` (quickbooks_client.py 244): a missing
amount contributes 0. -/
def amountOf (e : Expense) : Int := e.TotalAmt.getD 0

/-- The per-group accumulator dict (quickbooks_client.py 237-242). -/
structure ExpenseSummary where
  project_name : String
  expense_count : Nat
  total_amount : Int
  expenses : List Expense
deriving DecidableEq, Repr

/-- The body of the grouping loop (quickbooks_client.py 231-247): create the
group on first sight (name taken from that first record), then increment
count, add the amount and append the record. -/
def summarizeStep (m : List (Option String × ExpenseSummary)) (e : Expense) :
    List (Option String × ExpenseSummary) :=
  let k := refValue e
  let cur : ExpenseSummary := match alookup m k with
    | none => ⟨refName e, 0, 0, []⟩
    | some s => s
  upsert m k ⟨cur.project_name, cur.expense_count + 1,
    cur.total_amount + amountOf e, cur.expenses ++ [e]⟩

/-- `QuickBooksClient.get_project_expenses_summary`, grouping branch
(quickbooks_client.py 229-249 and 276-295), applied to the already fetched
expense list.  An empty input yields the empty dict. -/
def get_project_expenses_summary (es : List Expense) :
    List (Option String × ExpenseSummary) :=
  es.foldl summarizeStep []

/-- Folding one whole group into an accumulator summary (used to state what
the grouping loop does to a single key). -/
def foldGroup (init : ExpenseSummary) (grp : List Expense) : ExpenseSummary :=
  grp.foldl (fun s e =>
    ⟨s.project_name, s.expense_count + 1, s.total_amount + amountOf e,
      s.expenses ++ [e]⟩) init

/-- What one key's entry looks like after folding a whole record list:
`base` is the entry before, `grp` the records of that key, in order. -/
def groupResult (base : Option ExpenseSummary) (grp : List Expense) :
    Option ExpenseSummary :=
  match base, grp with
  | some s, g => some (foldGroup s g)
  | none, [] => none
  | none, e0 :: rest => some (foldGroup ⟨refName e0, 0, 0, []⟩ (e0 :: rest))

/-! ## Concrete fixtures used by witnesses and counterexamples -/

/-- A persisted token record with all three fields present. -/
def toksEx : Tokens := ⟨some "atk", some "rtk", some "realm1"⟩

/-- A successful refresh response whose body omits `realm_id`. -/
def respEx : TokenResp := ⟨200, ⟨some "atk2", some "rtk2", none⟩⟩

/-- A CompanyInfo oracle: 401 on the first call, 200 afterwards. -/
def ciEx : Nat → String → CIRes := fun k _ => if k = 0 then .code 401 else .ok

/-- A page of 1000 records: what the backend returns at most when the sent
page size is capped at 1000. -/
def fullPage : List Nat := List.replicate 1000 0

/-- A callback request on the right path whose `state` differs from the
nonce `"nonce1"`. -/
def badReq : CallbackReq := ⟨"/callback", some "authcode", some "forged", some "realm1"⟩

/-- An exchange oracle that always succeeds. -/
def exchangeEx : String → Option Tokens := fun _ => some ⟨some "atk", some "rtk", none⟩

/-- A flat project list: root `"1"`, child `"2"` of `"1"`, and `"3"` with a
dangling parent reference `"9"`. -/
def projsEx : List ProjRec :=
  [⟨some "1", some "Root", none, none⟩,
   ⟨some "2", some "Child", none, some "1"⟩,
   ⟨some "3", some "Dangling", none, some "9"⟩]

/-- The spec's 3-level example: one root, two children, one grandchild
under the first child. -/
def treeEx : PNode :=
  .mk "r" (.cons (.mk "c1" (.cons (.mk "g" .nil) .nil))
    (.cons (.mk "c2" .nil) .nil))

/-- Five transaction records across two project ids, with known amounts. -/
def expensesEx : List Expense :=
  [⟨some ⟨some "p1", some "Alpha"⟩, some 100⟩,
   ⟨some ⟨some "p2", some "Beta"⟩, some 40⟩,
   ⟨some ⟨some "p1", some "Alpha"⟩, some 250⟩,
   ⟨some ⟨some "p2", some "Beta"⟩, some 60⟩,
   ⟨some ⟨some "p1", some "Alpha"⟩, some 50⟩]

/-- The group the aggregation builds for `"p1"` from `expensesEx`. -/
def sumP1 : ExpenseSummary :=
  ⟨"Alpha", 3, 400,
   [⟨some ⟨some "p1", some "Alpha"⟩, some 100⟩,
    ⟨some ⟨some "p1", some "Alpha"⟩, some 250⟩,
    ⟨some ⟨some "p1", some "Alpha"⟩, some 50⟩]⟩

/-- A record with a project reference but no `TotalAmt`. -/
def noAmtEx : Expense := ⟨some ⟨some "p1", some "Alpha"⟩, none⟩

/-- The `"p1"` group after `noAmtEx` is appended to `expensesEx`: one more
record, unchanged total. -/
def sumP1x : ExpenseSummary :=
  ⟨"Alpha", 4, 400,
   [⟨some ⟨some "p1", some "Alpha"⟩, some 100⟩,
    ⟨some ⟨some "p1", some "Alpha"⟩, some 250⟩,
    ⟨some ⟨some "p1", some "Alpha"⟩, some 50⟩,
    noAmtEx]⟩

/-! ## Association-list lemmas -/

theorem alookup_upsert [DecidableEq κ] (l : List (κ × β)) (k : κ) (v : β) (q : κ) :
    alookup (upsert l k v) q = if q = k then some v else alookup l q := by
  induction l with
  | nil =>
    by_cases h : q = k
    · subst h; simp [upsert, alookup]
    · simp [upsert, alookup, h, Ne.symm h]
  | cons e rest ih =>
    obtain ⟨k2, v2⟩ := e
    by_cases h : k2 = k
    · subst h
      by_cases h2 : q = k2
      · subst h2; simp [upsert, alookup]
      · simp [upsert, alookup, h2, Ne.symm h2]
    · by_cases h2 : k2 = q
      · subst h2
        have h3 : ¬(k2 = k) := h
        simp [upsert, alookup, h3, fun hh : k2 = k => h3 hh]
      · simp [upsert, alookup, h, h2, ih]

theorem keysOf_upsert [DecidableEq κ] (l : List (κ × β)) (k : κ) (v : β) :
    keysOf (upsert l k v) =
      if k ∈ keysOf l then keysOf l else keysOf l ++ [k] := by
  induction l with
  | nil => simp [upsert, keysOf]
  | cons e rest ih =>
    obtain ⟨k2, v2⟩ := e
    by_cases h : k2 = k
    · subst h; simp [upsert, keysOf]
    · have h3 : ¬(k = k2) := fun hh => h hh.symm
      simp only [upsert, keysOf, List.map_cons, h, if_false, List.mem_cons, h3,
        false_or] at ih ⊢
      rw [ih]
      by_cases h2 : k ∈ List.map Prod.fst rest <;> simp [h2]

theorem alookup_addChild (m : List (String × List String)) (p c q : String) :
    alookup (addChild m p c) q =
      if q = p then (alookup m q).map (· ++ [c]) else alookup m q := by
  induction m with
  | nil =>
    by_cases h : q = p
    · subst h; simp [addChild, alookup]
    · simp [addChild, alookup, h]
  | cons e rest ih =>
    obtain ⟨k, cs⟩ := e
    by_cases h : k = p
    · subst h
      by_cases h2 : q = k
      · subst h2; simp [addChild, alookup]
      · simp [addChild, alookup, h2, Ne.symm h2]
    · by_cases h2 : k = q
      · subst h2
        have h3 : ¬(k = p) := h
        simp [addChild, alookup, h3]
      · simp [addChild, alookup, h, h2, ih]

theorem alookup_initChildren (keys : List String) (q : String) :
    alookup (keys.map fun k => (k, ([] : List String))) q =
      if q ∈ keys then some [] else none := by
  induction keys with
  | nil => simp [alookup]
  | cons k rest ih =>
    by_cases h : k = q
    · subst h; simp [alookup]
    · have h3 : ¬(q = k) := fun hh => h hh.symm
      simp [alookup, h, h3, ih]

/-! ## Pass-2 fold characterization -/

theorem pass2_fold (keys : List String) (es : List (String × NodeData)) :
    ∀ acc : List (String × List String) × List String,
      (es.foldl (pass2Step keys) acc).2 =
        acc.2 ++ (es.filter fun e =>
          resolvesTo keys e.2.parent_ref = none).map Prod.fst
      ∧ ∀ q, alookup (es.foldl (pass2Step keys) acc).1 q =
          (alookup acc.1 q).map
            (· ++ (es.filter fun e =>
              resolvesTo keys e.2.parent_ref = some q).map Prod.fst) := by
  induction es with
  | nil =>
    intro acc
    refine ⟨by simp, fun q => ?_⟩
    simp only [List.foldl_nil, List.filter_nil, List.map_nil]
    cases alookup acc.1 q <;> simp
  | cons e rest ih =>
    intro acc
    cases hres : resolvesTo keys e.2.parent_ref with
    | none =>
      obtain ⟨ih1, ih2⟩ := ih (pass2Step keys acc e)
      constructor
      · rw [List.foldl_cons, ih1]
        simp [pass2Step, hres, List.filter_cons]
      · intro q
        rw [List.foldl_cons, ih2 q]
        simp [pass2Step, hres, List.filter_cons]
    | some p =>
      obtain ⟨ih1, ih2⟩ := ih (pass2Step keys acc e)
      constructor
      · rw [List.foldl_cons, ih1]
        simp [pass2Step, hres, List.filter_cons]
      · intro q
        rw [List.foldl_cons, ih2 q]
        simp only [pass2Step, hres, alookup_addChild]
        by_cases hq : q = p
        · subst hq
          rw [if_pos rfl, Option.map_map]
          simp only [List.filter_cons, hres]
          cases alookup acc.1 q <;> simp [Function.comp]
        · have hq3 : ¬(p = q) := fun hh => hq hh.symm
          simp [hq, List.filter_cons, hres, hq3]

/-- Pass-1 key order: with distinct admitted ids the lookup table lists them
in input order. -/
theorem buildLookup_keys (ps : List ProjRec) :
    ∀ acc : List (String × NodeData),
      (keysOf acc ++ ps.filterMap validId).Nodup →
      keysOf (ps.foldl lookupStep acc) = keysOf acc ++ ps.filterMap validId := by
  induction ps with
  | nil => intro acc _; simp
  | cons p rest ih =>
    intro acc hnd
    cases hv : validId p with
    | none =>
      rw [List.foldl_cons]
      have : lookupStep acc p = acc := by simp [lookupStep, hv]
      rw [this, ih acc (by simpa [hv] using hnd)]
      simp [hv]
    | some i =>
      rw [List.foldl_cons]
      have hstep : lookupStep acc p =
          upsert acc i ⟨p.Name.getD "", p.Description.getD "", p.ParentRef⟩ := by
        simp [lookupStep, hv]
      have hnd2 : (keysOf acc ++ i :: rest.filterMap validId).Nodup := by
        simpa [hv] using hnd
      have hi : i ∉ keysOf acc := fun hmem =>
        (List.disjoint_of_nodup_append hnd2) hmem (List.mem_cons_self i _)
      have hkeys : keysOf (lookupStep acc p) = keysOf acc ++ [i] := by
        rw [hstep, keysOf_upsert, if_neg hi]
      have hnd3 : (keysOf (lookupStep acc p) ++ rest.filterMap validId).Nodup := by
        rw [hkeys, List.append_assoc, List.singleton_append]
        exact hnd2
      rw [ih (lookupStep acc p) hnd3, hkeys, List.append_assoc,
        List.singleton_append]
      simp [hv]

/-! ## Callback-listener lemmas -/

theorem do_GET_reject (rp nonce : String) (r : CallbackReq) (s : ServerState)
    (hp : r.path = rp) (hrej : rejecting nonce r) :
    do_GET rp nonce r s = ({ s with should_stop := true }, 400) := by
  unfold do_GET rejecting at *
  rw [if_neg (by simp [hp]), if_pos hrej]

theorem serveLoop_no_code (rp nonce : String) (reqs : List CallbackReq) :
    ∀ s : ServerState, s.auth_code = none →
      (∀ r ∈ reqs, r.path = rp → rejecting nonce r) →
      (serveLoop rp nonce s reqs).auth_code = none := by
  induction reqs with
  | nil => intro s hs _; simpa [serveLoop] using hs
  | cons r rest ih =>
    intro s hs hall
    rw [serveLoop]
    by_cases hstop : s.should_stop
    · simp [hstop, hs]
    · rw [if_neg hstop]
      apply ih
      · by_cases hp : r.path = rp
        · rw [do_GET_reject rp nonce r s hp (hall r (by simp) hp)]
          exact hs
        · unfold do_GET
          rw [if_pos (by simp [hp])]
          exact hs
      · exact fun r2 hr2 hp2 => hall r2 (by simp [hr2]) hp2

/-! ## Aggregation lemmas -/

theorem groupResult_nil (base : Option ExpenseSummary) :
    groupResult base [] = base := by
  cases base <;> simp [groupResult, foldGroup]

theorem foldGroup_cons (init : ExpenseSummary) (e : Expense) (grp : List Expense) :
    foldGroup init (e :: grp) =
      foldGroup ⟨init.project_name, init.expense_count + 1,
        init.total_amount + amountOf e, init.expenses ++ [e]⟩ grp := by
  simp [foldGroup]

theorem summarize_fold (rs : List Expense) :
    ∀ (m : List (Option String × ExpenseSummary)) (k : Option String),
      alookup (rs.foldl summarizeStep m) k =
        groupResult (alookup m k) (rs.filter fun e => refValue e = k) := by
  induction rs with
  | nil => intro m k; simp [groupResult_nil]
  | cons e rest ih =>
    intro m k
    rw [List.foldl_cons, ih (summarizeStep m e) k]
    by_cases hk : refValue e = k
    · subst hk
      rw [List.filter_cons, if_pos (by simp)]
      have hlk : alookup (summarizeStep m e) (refValue e) =
          some (match alookup m (refValue e) with
            | none => ⟨refName e, 0 + 1, 0 + amountOf e, [] ++ [e]⟩
            | some s => ⟨s.project_name, s.expense_count + 1,
                s.total_amount + amountOf e, s.expenses ++ [e]⟩) := by
        unfold summarizeStep
        rw [alookup_upsert, if_pos rfl]
        cases alookup m (refValue e) <;> simp
      rw [hlk]
      cases hm : alookup m (refValue e) with
      | none => simp [groupResult, foldGroup_cons]
      | some s => simp [groupResult, foldGroup_cons]
    · rw [List.filter_cons, if_neg (by simpa using hk)]
      have hlk : alookup (summarizeStep m e) k = alookup m k := by
        unfold summarizeStep
        rw [alookup_upsert, if_neg (fun hh => hk hh.symm)]
      rw [hlk]

theorem foldGroup_spec (grp : List Expense) :
    ∀ init : ExpenseSummary,
      (foldGroup init grp).project_name = init.project_name ∧
      (foldGroup init grp).expense_count = init.expense_count + grp.length ∧
      (foldGroup init grp).total_amount =
        init.total_amount + (grp.map amountOf).sum ∧
      (foldGroup init grp).expenses = init.expenses ++ grp := by
  induction grp with
  | nil => intro init; simp [foldGroup]
  | cons e rest ih =>
    intro init
    rw [foldGroup_cons]
    obtain ⟨h1, h2, h3, h4⟩ := ih ⟨init.project_name, init.expense_count + 1,
      init.total_amount + amountOf e, init.expenses ++ [e]⟩
    refine ⟨by simpa using h1, by simp at h2 ⊢; omega, ?_, by simp at h4 ⊢; simp [h4]⟩
    rw [h3]
    simp
    ring

/-! ## Subtree-collection lemmas -/

mutual
theorem collectGo_eq : ∀ (n : PNode) (acc : List String),
    collectGo n acc = acc ++ preorder n
  | .mk i cs, acc => by
    rw [collectGo, preorder, collectForest_eq cs (acc ++ [i])]
    simp
theorem collectForest_eq : ∀ (cs : PForest) (acc : List String),
    collectForest cs acc = acc ++ preorderForest cs
  | .nil, acc => by simp [collectForest, preorderForest]
  | .cons c cs, acc => by
    rw [collectForest, preorderForest, collectGo_eq c acc,
      collectForest_eq cs (acc ++ preorder c)]
    simp
end

/-! ## Claim theorems -/

/-- C1: if the wrapped CompanyInfo call reports HTTP 401, the manager
performs exactly one refresh and retries the call exactly once with the new
access credential; when the retry succeeds the wrapper returns success with
refresh invoked exactly once, and a second failure is surfaced without
further retries. -/
theorem c1_bounded_retry (t : Tokens) (a r rt a2 : String) (resp : TokenResp)
    (ci : Nat → String → CIRes)
    (ht : t.access_token = some a) (hr : t.realm_id = some r)
    (hrt : t.refresh_token = some rt) (hs : resp.status = 200)
    (ha2 : resp.body.access_token = some a2) (h0 : ci 0 a = .code 401) :
    (ci 1 a2 = .ok →
      test_company_info (some t) ci (some resp) = some (true, 1)) ∧
    (∀ m, ci 1 a2 = .code m →
      test_company_info (some t) ci (some resp) = some (false, 1)) := by
  have hnt : ∃ nt, (refresh_tokens (some t) (some resp)).1 = some nt ∧
      nt.access_token = some a2 := by
    by_cases hcond : resp.body.realm_id = none ∧ t.realm_id ≠ none
    · exact ⟨{ resp.body with realm_id := t.realm_id },
        by simp [refresh_tokens, hrt, hs, hcond], by simpa using ha2⟩
    · exact ⟨resp.body, by simp [refresh_tokens, hrt, hs, hcond], ha2⟩
  obtain ⟨nt, hnt1, hacc⟩ := hnt
  constructor
  · intro h1
    simp [test_company_info, ht, hr, h0, hnt1, hacc, h1]
  · intro m h1
    simp [test_company_info, ht, hr, h0, hnt1, hacc, h1]

/-- C1 witness: a call failing with 401 once and then succeeding, under a
successful refresh, returns success with exactly one refresh. -/
theorem c1_bounded_retry_witness :
    test_company_info (some toksEx) ciEx (some respEx) = some (true, 1) :=
  (c1_bounded_retry toksEx "atk" "realm1" "rtk" "atk2" respEx ciEx
    rfl rfl rfl rfl rfl rfl).1 rfl

/-- C5: `refresh_tokens` fails immediately when no persisted record with a
refresh credential exists (missing file or missing `refresh_token` key) and
leaves the persisted record unchanged; on a 200 refresh response whose body
omits `realm_id`, the previous record's realm id is carried into the new
record, and the new record wholly replaces the old persisted record. -/
theorem c5_refresh_spec (persisted : Option Tokens) (post : Option TokenResp) :
    ((∀ t, persisted = some t → t.refresh_token = none) →
      refresh_tokens persisted post = (none, persisted)) ∧
    (∀ t resp r, persisted = some t → post = some resp →
      resp.status = 200 → resp.body.realm_id = none → t.realm_id = some r →
      t.refresh_token ≠ none →
      refresh_tokens persisted post =
        (some { resp.body with realm_id := some r },
         some { resp.body with realm_id := some r })) := by
  constructor
  · intro hno
    cases persisted with
    | none => rfl
    | some t => simp [refresh_tokens, hno t rfl]
  · intro t resp r hp hpost hst hrealm hr hrt
    subst hp
    subst hpost
    cases hrt2 : t.refresh_token with
    | none => exact absurd hrt2 hrt
    | some rtk => simp [refresh_tokens, hrt2, hst, hrealm, hr]

/-- C5 witness: with a persisted record holding a refresh token and realm
`"realm1"`, a 200 response without `realm_id` yields a new record carrying
`"realm1"`, which becomes the whole persisted record. -/
theorem c5_refresh_spec_witness :
    refresh_tokens (some toksEx) (some respEx) =
      (some ⟨some "atk2", some "rtk2", some "realm1"⟩,
       some ⟨some "atk2", some "rtk2", some "realm1"⟩) :=
  (c5_refresh_spec (some toksEx) (some respEx)).2 toksEx respEx "realm1"
    rfl rfl rfl rfl rfl (by simp [toksEx])

/-- C2 counterexample: with `max_results = 1001` the request parameter sent
is the capped page size 1000; the backend returns a page whose length
equals that requested page size (not strictly less) and a second response
with the collection key missing, yet the loop stops after a single request
(the claim predicts it must continue to a second request, since the page is
not strictly shorter than the requested page size). -/
theorem c2_stop_rule_counterexample :
    requestedPageSize 1001 = 1000 ∧
    fullPage.length = requestedPageSize 1001 ∧
    (fetchGo 1001 [.page fullPage, .noKey] : FetchResult Nat).requests = 1 ∧
    (fetchGo 1001 [.page fullPage, .noKey] : FetchResult Nat).records =
      fullPage := by
  have h : fullPage.length = 1000 := by
    unfold fullPage
    exact List.length_replicate 1000 0
  refine ⟨by decide, by rw [h]; decide, ?_, ?_⟩
  · simp [fetchGo, h]
  · simp [fetchGo, h]

/-- C2 (amended): the loop stops when a page's length is strictly less than
the `max_results` argument itself (which equals the requested page size
exactly when `max_results ≤ 1000`), or when the collection key is missing
(a clean empty stop); under that cap, pages of sizes {N, N, N-1} give
exactly 3 requests and 3N-1 records. -/
theorem c2_pagination_amended (m : Nat) (hm : 0 < m) (hcap : m ≤ 1000)
    (b1 b2 b3 : List Nat) (bs : List (PageResp Nat))
    (h1 : b1.length = m) (h2 : b2.length = m) (h3 : b3.length = m - 1) :
    requestedPageSize m = m ∧
    fetchGo m [.page b1, .page b2, .page b3] =
      ⟨b1 ++ (b2 ++ b3), 3, false⟩ ∧
    (b1 ++ (b2 ++ b3)).length = 3 * m - 1 ∧
    fetchGo m (PageResp.noKey :: bs) = ⟨[], 1, false⟩ := by
  have hlt1 : ¬(b1.length < m) := by omega
  have hlt2 : ¬(b2.length < m) := by omega
  have hlt3 : b3.length < m := by omega
  refine ⟨?_, ?_, ?_, ?_⟩
  · unfold requestedPageSize
    exact min_eq_left hcap
  · simp [fetchGo, hlt1, hlt2, hlt3]
  · simp only [List.length_append, h1, h2, h3]
    omega
  · simp [fetchGo]

/-- C2 witness: page size 2 against pages of sizes 2, 2, 1 gives exactly
3 requests and the 5 records in order. -/
theorem c2_pagination_amended_witness :
    fetchGo 2 [.page [1, 2], .page [3, 4], .page [5]] =
      (⟨[1, 2] ++ ([3, 4] ++ [5]), 3, false⟩ : FetchResult Nat) :=
  (c2_pagination_amended 2 (by decide) (by decide) [1, 2] [3, 4] [5] []
    rfl rfl rfl).2.1

/-- C3 counterexample: a run whose first page request raises a transport
error and a clean run whose first response merely lacks the collection key
return the very same value to the caller (the empty list), so the returned
result does not inform the caller of the truncation. -/
theorem c3_truncation_counterexample :
    (fetchGo 2 [(.err : PageResp Nat)]).errored = true ∧
    (fetchGo 2 [(.noKey : PageResp Nat)]).errored = false ∧
    get_expenses 2 [(.err : PageResp Nat)] =
      get_expenses 2 [(.noKey : PageResp Nat)] := by
  exact ⟨rfl, rfl, rfl⟩

/-- C3 (amended): a transport or decode error during a page fetch
truncates the stream: the function returns exactly the records accumulated
before the error and does not raise; an error message is printed (the
`errored` flag), but the returned list itself carries no truncation
indicator. -/
theorem c3_truncation_amended (m : Nat) (b1 : List Nat) (h1 : m ≤ b1.length) :
    fetchGo m [.page b1, .err] = ⟨b1, 2, true⟩ ∧
    get_expenses m [.page b1, .err] = b1 := by
  have hlt : ¬(b1.length < m) := by omega
  exact ⟨by simp [fetchGo, hlt], by simp [get_expenses, fetchGo, hlt]⟩

/-- C3 witness: a full first page of one record followed by an error yields
exactly that record, two requests, and the logged error. -/
theorem c3_truncation_amended_witness :
    fetchGo 1 [.page [7], .err] = (⟨[7], 2, true⟩ : FetchResult Nat) :=
  (c3_truncation_amended 1 [7] (by decide)).1

/-- C4: a callback request on the configured path whose `code` is absent
(or Python-falsy) or whose `state` differs from this run's nonce is
answered 400 and stops the listener; when every on-path request in the run
is such a request, no authorization code is ever captured and the overall
`authenticate` call returns no tokens. -/
theorem c4_denied_no_capture (rp nonce : String) (reqs : List CallbackReq)
    (hall : ∀ r ∈ reqs, r.path = rp → rejecting nonce r) :
    (serveLoop rp nonce initServer reqs).auth_code = none ∧
    (∀ exchange, authenticate rp nonce reqs exchange = none) ∧
    (∀ r, r.path = rp → rejecting nonce r →
      (do_GET rp nonce r initServer).1.should_stop = true ∧
      (do_GET rp nonce r initServer).2 = 400) := by
  have hnone := serveLoop_no_code rp nonce reqs initServer rfl hall
  refine ⟨hnone, fun exchange => ?_, fun r hp hrej => ?_⟩
  · simp [authenticate, hnone]
  · rw [do_GET_reject rp nonce r initServer hp hrej]
    exact ⟨rfl, rfl⟩

/-- C4 witness: a single on-path request with no `code` parameter leaves no
captured code. -/
theorem c4_denied_no_capture_witness :
    (serveLoop "/callback" "nonce1" initServer
      [⟨"/callback", none, some "x", none⟩]).auth_code = none :=
  (c4_denied_no_capture "/callback" "nonce1"
    [⟨"/callback", none, some "x", none⟩] (by decide)).1

/-- C6 counterexample: an explicit denial (state mismatch, with an exchange
oracle that would succeed) and a pure timeout produce the very same
caller-visible value `none` from `authenticate`; the two failures are not
distinguishable results. -/
theorem c6_timeout_vs_denial_counterexample :
    authenticate "/callback" "nonce1" [badReq] exchangeEx = none ∧
    authenticate "/callback" "nonce1" [] exchangeEx = none ∧
    authenticate "/callback" "nonce1" [badReq] exchangeEx =
      authenticate "/callback" "nonce1" [] exchangeEx ∧
    exchangeEx "authcode" ≠ none := by
  decide

/-- C6 (amended): when the flow ends by timeout with no callback, and when
it ends by explicit denial, `authenticate` returns the same caller-visible
failure `none` (the code prints the same "timed out or error" message); the
two outcomes are not distinct values. -/
theorem c6_timeout_equals_denial (rp nonce : String) (reqs : List CallbackReq)
    (hall : ∀ r ∈ reqs, r.path = rp → rejecting nonce r)
    (exchange : String → Option Tokens) :
    authenticate rp nonce reqs exchange = none ∧
    authenticate rp nonce [] exchange = none := by
  constructor
  · simp [authenticate, serveLoop_no_code rp nonce reqs initServer rfl hall]
  · simp [authenticate, serveLoop, initServer]

/-- C6 amended witness: denial run and timeout run both return `none`. -/
theorem c6_timeout_equals_denial_witness :
    authenticate "/callback" "nonce2" [badReq] exchangeEx = none ∧
    authenticate "/callback" "nonce2" [] exchangeEx = none :=
  c6_timeout_equals_denial "/callback" "nonce2" [badReq] (by decide) exchangeEx

/-- C7: after the two-pass build, the roots are exactly the lookup entries
whose parent reference does not resolve in the lookup table (absent,
Python-falsy, or dangling — degraded to root, never an error), in table
order; each node's children are exactly the entries whose parent reference
resolves to it, appended in table-iteration order; and when the admitted
input ids are distinct, the table order is the input order. -/
theorem c7_hierarchy_classification (ps : List ProjRec) :
    (get_project_hierarchy ps).root_projects =
      ((buildLookup ps).filter fun e =>
        resolvesTo (keysOf (buildLookup ps)) e.2.parent_ref = none).map
          Prod.fst ∧
    (∀ q, alookup (get_project_hierarchy ps).children q =
      if q ∈ keysOf (buildLookup ps) then
        some (((buildLookup ps).filter fun e =>
          resolvesTo (keysOf (buildLookup ps)) e.2.parent_ref = some q).map
            Prod.fst)
      else none) ∧
    ((ps.filterMap validId).Nodup →
      keysOf (buildLookup ps) = ps.filterMap validId) := by
  obtain ⟨h1, h2⟩ := pass2_fold (keysOf (buildLookup ps)) (buildLookup ps)
    ((keysOf (buildLookup ps)).map fun k => (k, []), [])
  refine ⟨?_, fun q => ?_, fun hnd => ?_⟩
  · simp only [get_project_hierarchy]
    rw [h1]
    simp
  · simp only [get_project_hierarchy]
    rw [h2 q, alookup_initChildren]
    by_cases hq : q ∈ keysOf (buildLookup ps) <;> simp [hq]
  · have := buildLookup_keys ps [] (by simpa [keysOf] using hnd)
    simpa [buildLookup, keysOf] using this

/-- C7 witness: on a list with a root, a child and a dangling parent
reference, the roots are the unresolved entries, the child lists match the
resolving entries, and the table keys are the input ids in order. -/
theorem c7_hierarchy_classification_witness :
    keysOf (buildLookup projsEx) = projsEx.filterMap validId ∧
    alookup (get_project_hierarchy projsEx).children "1" = some ["2"] :=
  ⟨(c7_hierarchy_classification projsEx).2.2 (by decide),
   by rw [(c7_hierarchy_classification projsEx).2.1 "1"]; decide⟩

/-- C8: `_get_project_and_subproject_ids` returns the ids of the target
node and all its descendants in depth-first pre-order; when the target id
is not found in the tree it returns exactly the single-element list of that
id; on the 3-level example it returns all 4 ids exactly once, in
pre-order. -/
theorem c8_descendants_and_self :
    (∀ (tree : PNode) (pid : String), findNode tree pid = none →
      getProjectAndSubprojectIds tree pid = [pid]) ∧
    (∀ (tree : PNode) (pid : String) (n : PNode), findNode tree pid = some n →
      getProjectAndSubprojectIds tree pid = preorder n) ∧
    getProjectAndSubprojectIds treeEx "r" = ["r", "c1", "g", "c2"] ∧
    (["r", "c1", "g", "c2"] : List String).Nodup := by
  refine ⟨fun tree pid h => ?_, fun tree pid n h => ?_, rfl, by decide⟩
  · simp [getProjectAndSubprojectIds, h]
  · simp [getProjectAndSubprojectIds, h, collectGo_eq]

/-- C8 witness: an id absent from the example tree falls back to the
single-element list. -/
theorem c8_descendants_and_self_witness :
    getProjectAndSubprojectIds treeEx "zz" = ["zz"] :=
  c8_descendants_and_self.1 treeEx "zz" rfl

/-- C9: the aggregation groups records by their project reference id (a
record with no reference falls under the sentinel key `none` with display
name "Unknown Project"); a key is absent exactly when no record has it;
each present group's count is the number of its records, its total is the
sum of their `TotalAmt` amounts, its record list is exactly those records
in order, and its display name comes from the group's first record; the
empty input yields the empty map. -/
theorem c9_summarize_groups (rs : List Expense) (k : Option String) :
    get_project_expenses_summary [] = [] ∧
    (alookup (get_project_expenses_summary rs) k = none ↔
      rs.filter (fun e => refValue e = k) = []) ∧
    (∀ s, alookup (get_project_expenses_summary rs) k = some s →
      s.expense_count = (rs.filter fun e => refValue e = k).length ∧
      s.total_amount = ((rs.filter fun e => refValue e = k).map amountOf).sum ∧
      s.expenses = rs.filter (fun e => refValue e = k) ∧
      ∃ e0 t, rs.filter (fun e => refValue e = k) = e0 :: t ∧
        s.project_name = refName e0) ∧
    (∀ e : Expense, e.ProjectRef = none →
      refValue e = none ∧ refName e = "Unknown Project") := by
  have hch : alookup (get_project_expenses_summary rs) k =
      groupResult none (rs.filter fun e => refValue e = k) :=
    summarize_fold rs [] k
  cases hf : rs.filter (fun e => refValue e = k) with
  | nil =>
    rw [hf, groupResult_nil] at hch
    refine ⟨rfl, by simp [hch, hf], fun s hs => ?_,
      fun e he => by simp [refValue, refName, he]⟩
    rw [hch] at hs
    cases hs
  | cons e0 tl =>
    rw [hf] at hch
    have hch2 : alookup (get_project_expenses_summary rs) k =
        some (foldGroup ⟨refName e0, 0, 0, []⟩ (e0 :: tl)) := hch
    obtain ⟨hn, hc, htot, hexp⟩ :=
      foldGroup_spec (e0 :: tl) ⟨refName e0, 0, 0, []⟩
    refine ⟨rfl, by simp [hch2, hf], fun s hs => ?_,
      fun e he => by simp [refValue, refName, he]⟩
    rw [hch2] at hs
    injection hs with hs
    subst hs
    refine ⟨by simpa using hc, by simpa using htot, by simpa using hexp,
      e0, tl, rfl, by simpa using hn⟩

/-- C9 witness: on the five synthetic records across two project ids, the
group for `"p1"` has count 3, total 400, its three records in order, and
the name of its first record. -/
theorem c9_summarize_groups_witness :
    sumP1.expense_count =
      (expensesEx.filter fun e => refValue e = some "p1").length ∧
    sumP1.total_amount =
      ((expensesEx.filter fun e => refValue e = some "p1").map amountOf).sum ∧
    sumP1.expenses = expensesEx.filter (fun e => refValue e = some "p1") ∧
    ∃ e0 t, expensesEx.filter (fun e => refValue e = some "p1") = e0 :: t ∧
      sumP1.project_name = refName e0 :=
  (c9_summarize_groups expensesEx (some "p1")).2.2.1 sumP1 (by decide)

/-- C10: a record whose `TotalAmt` is missing contributes exactly 0 to its
group's running total, while still incrementing the group's count and being
retained in the group's record list — both when its group already exists
and when it is the group's first record. -/
theorem c10_missing_amount_counts (rs : List Expense) (x : Expense)
    (hx : x.TotalAmt = none) :
    amountOf x = 0 ∧
    (∀ s, alookup (get_project_expenses_summary rs) (refValue x) = some s →
      ∀ s2, alookup (get_project_expenses_summary (rs ++ [x]))
          (refValue x) = some s2 →
        s2.expense_count = s.expense_count + 1 ∧
        s2.total_amount = s.total_amount ∧
        s2.expenses = s.expenses ++ [x]) ∧
    (alookup (get_project_expenses_summary rs) (refValue x) = none →
      ∀ s2, alookup (get_project_expenses_summary (rs ++ [x]))
          (refValue x) = some s2 →
        s2.expense_count = 1 ∧ s2.total_amount = 0 ∧ s2.expenses = [x]) := by
  have hax : amountOf x = 0 := by simp [amountOf, hx]
  have h1 : alookup (get_project_expenses_summary rs) (refValue x) =
      groupResult none (rs.filter fun e => refValue e = refValue x) :=
    summarize_fold rs [] (refValue x)
  have h2 : alookup (get_project_expenses_summary (rs ++ [x])) (refValue x) =
      groupResult none ((rs ++ [x]).filter fun e => refValue e = refValue x) :=
    summarize_fold (rs ++ [x]) [] (refValue x)
  have hfx : (rs ++ [x]).filter (fun e => refValue e = refValue x) =
      rs.filter (fun e => refValue e = refValue x) ++ [x] := by
    simp [List.filter_append]
  rw [hfx] at h2
  refine ⟨hax, fun s hs s2 hs2 => ?_, fun hnone s2 hs2 => ?_⟩
  · cases hf : rs.filter (fun e => refValue e = refValue x) with
    | nil =>
      rw [hf, groupResult_nil] at h1
      rw [h1] at hs
      cases hs
    | cons e0 tl =>
      rw [hf] at h1 h2
      have hgr1 : groupResult none (e0 :: tl) =
          some (foldGroup ⟨refName e0, 0, 0, []⟩ (e0 :: tl)) := rfl
      have hgr2 : groupResult none ((e0 :: tl) ++ [x]) =
          some (foldGroup ⟨refName e0, 0, 0, []⟩ ((e0 :: tl) ++ [x])) := rfl
      have hs' : some (foldGroup ⟨refName e0, 0, 0, []⟩ (e0 :: tl)) = some s := by
        rw [← hgr1, ← h1]
        exact hs
      have hs2' : some (foldGroup ⟨refName e0, 0, 0, []⟩ ((e0 :: tl) ++ [x])) =
          some s2 := by
        rw [← hgr2, ← h2]
        exact hs2
      injection hs' with hs'
      injection hs2' with hs2'
      subst hs'
      subst hs2'
      unfold foldGroup
      rw [List.foldl_append]
      simp [hax]
  · cases hf : rs.filter (fun e => refValue e = refValue x) with
    | cons e0 tl =>
      rw [hf] at h1
      rw [h1] at hnone
      cases hnone
    | nil =>
      rw [hf] at h2
      have hgr3 : groupResult none (([] : List Expense) ++ [x]) =
          some (foldGroup ⟨refName x, 0, 0, []⟩ [x]) := rfl
      have hs2' : some (foldGroup ⟨refName x, 0, 0, []⟩ [x]) = some s2 := by
        rw [← hgr3, ← h2]
        exact hs2
      injection hs2' with hs2'
      subst hs2'
      simp [foldGroup, hax]

/-- C10 witness: appending the amount-less record to the five synthetic
records grows the `"p1"` group from 3 records totalling 400 to 4 records
still totalling 400, with the record retained. -/
theorem c10_missing_amount_counts_witness :
    sumP1x.expense_count = sumP1.expense_count + 1 ∧
    sumP1x.total_amount = sumP1.total_amount ∧
    sumP1x.expenses = sumP1.expenses ++ [noAmtEx] :=
  (c10_missing_amount_counts expensesEx noAmtEx rfl).2.1 sumP1 (by decide)
    sumP1x (by decide)

end PLTracker
